import Mathlib

/-!
Verification development for the operon-assembly core of groov-db-api
(`src/functions/getOperon/getOperon.py`).

The Python functions `fasta2MetaData`, `parseGenome` and `getOperon` (with its
inner loop `getGene`) are embedded as executable Lean definitions.  Python
strings are modelled as `String` / `List Char`; Python `dict` records as a
structure with `Option` fields (a missing key is `none`); code that can raise
an exception returns `Option` (`none` = an exception was raised at that point).
Python list indexing `xs[i]` supports negative indices (they wrap around from
the end); this is modelled faithfully by `pyGet`.
-/

/-- Python `s.split(sep)` for a non-empty separator, over character lists.
`fuel` bounds the recursion; each step consumes at least one character, so
`fuel = s.length + 1` always suffices and the fuel case is unreachable. -/
def splitAux (sep : List Char) : Nat → List Char → List Char → List (List Char)
  | 0, s, acc => [acc ++ s]
  | _ + 1, [], acc => [acc]
  | fuel + 1, c :: rest, acc =>
    if sep.isPrefixOf (c :: rest) then
      acc :: splitAux sep fuel (List.drop sep.length (c :: rest)) []
    else
      splitAux sep fuel rest (acc ++ [c])

/-- Python `s.split(sep)`. -/
def pySplit (sep : List Char) (s : List Char) : List (List Char) :=
  splitAux sep (s.length + 1) s []

/-- Python `re.search(pat, s)` for a pattern free of regex metacharacters
(the only patterns the repository passes are plain digit strings), i.e.
substring containment. -/
def containsSub (pat : List Char) : List Char → Bool
  | [] => pat.isPrefixOf ([] : List Char)
  | c :: rest => pat.isPrefixOf (c :: rest) || containsSub pat rest

/-- Python `re.sub("\\D", "", s)`: keep only decimal digits. -/
def digitsOnly (s : List Char) : List Char :=
  s.filter Char.isDigit

/-- Python `int(s)` on a string that is expected to hold decimal digits:
raises (`none`) on the empty string or a non-digit character. -/
def intOfDigits (s : List Char) : Option Nat :=
  if s = [] ∨ ¬ s.all Char.isDigit then none
  else some (s.foldl (fun n c => n * 10 + (c.toNat - 48)) 0)

/-- The apostrophe character, as removed by
`metaData["description"].replace("'", "")`. -/
def apoChar : Char := Char.ofNat 39

/-- The `metaData` dictionary built by `fasta2MetaData`: one field per key the
function may set, `none` when the key was never assigned. -/
structure MetaData where
  aliasF : Option String
  description : Option String
  link : Option String
  direction : Option String
  start : Option Int
  stop : Option Int
deriving DecidableEq

/-- The empty dictionary `metaData = {}`. -/
def MetaData.empty : MetaData := ⟨none, none, none, none, none, none⟩

/-- The strand assigned by the location branch of `fasta2MetaData`: `-` for a
`complement(...)` location, `+` otherwise. -/
def locDir (i : List Char) : String :=
  if (i.drop 9).take 11 = (("complement(").toList) then ("-") else ("+")

/-- The coordinate text sliced out by the location branch of
`fasta2MetaData`: `i[20:-2]` for a `complement(...)` location, `i[9:-1]`
otherwise (the same complement test that chooses the strand). -/
def locationSlice (i : List Char) : List Char :=
  if (i.drop 9).take 11 = (("complement(").toList) then
    ((i.drop 20).dropLast).dropLast
  else (i.drop 9).dropLast

/-- One iteration of the `for i in regulator` loop of `fasta2MetaData`:
updates the dictionary from one `" ["`-separated token.  Returns `none` when
the location branch raises (`location[1]` out of range, or `int` applied to a
coordinate with no digit). -/
def applyToken (md : MetaData) (i : List Char) : Option MetaData :=
  if i.take 10 = (("locus_tag=").toList) then
    some { md with aliasF := some (String.mk ((i.drop 10).dropLast)) }
  else if i.take 8 = (("protein=").toList) then
    let desc := String.mk (((i.drop 8).dropLast).filter (fun c => ¬ c = apoChar))
    some { md with description := some desc }
  else if i.take 11 = (("protein_id=").toList) then
    some { md with link := some (String.mk ((i.drop 11).dropLast)) }
  else if i.take 9 = (("location=").toList) then
    match pySplit (("..").toList) (locationSlice i) with
    | p0 :: p1 :: _ =>
      match intOfDigits (digitsOnly p0), intOfDigits (digitsOnly p1) with
      | some a, some b =>
        some { md with direction := some (locDir i),
                       start := some (a : Int), stop := some (b : Int) }
      | _, _ => none
    | _ => none
  else
    some md

/-- The whole `for i in regulator` loop, propagating a raised exception. -/
def applyTokens : MetaData → List (List Char) → Option MetaData
  | md, [] => some md
  | md, t :: ts =>
    match applyToken md t with
    | none => none
    | some md2 => applyTokens md2 ts

/-- `fasta2MetaData(fasta)`: split on `" ["`, process every token, then
default `link` to the empty string when it was never set.  `none` means the
Python call raised an exception. -/
def fasta2MetaData (fasta : String) : Option MetaData :=
  match applyTokens MetaData.empty (pySplit ((" [").toList) fasta.toList) with
  | none => none
  | some md =>
    some (if md.link.isNone then { md with link := some ("") } else md)

/-- Python list indexing `xs[i]`: a negative index wraps around from the end
(`xs[-1]` is the last element); `none` = `IndexError`. -/
def pyGet (l : List α) (i : Int) : Option α :=
  if 0 ≤ i then l.get? i.toNat
  else if 0 ≤ (l.length : Int) + i then l.get? ((l.length : Int) + i).toNat
  else none

/-- The inner `while` loop `getGene(geneStrand, direction, nextGene, geneList,
index)` of `getOperon`.  The Python closure reads `allGenes` and `seq_start`
from the enclosing scope; they are lifted to parameters here.  The Python loop
only ever appends to `geneList`, so the embedding returns the list of genes
appended (the suffix added to the caller's list).  The `Bool` is `true` when
the `while` condition's lookup `nextGene["direction"]` raised a `KeyError`
that escapes `getGene` (the one exception the inner `try` does not catch);
every exception inside the loop body is caught and simply ends the loop.
`fuel` bounds the iteration count; the cursor moves one step per iteration
and Python indexing fails outside `[-len, len)`, so `2 * len + 4` steps always
suffice and the fuel case is unreachable from `getOperon`. -/
def getGene (allGenes : List String) (seq_start : Int)
    (geneStrand direction : String) :
    Nat → MetaData → Int → List MetaData × Bool
  | 0, _, _ => ([], false)
  | fuel + 1, nextGene, index =>
    match nextGene.direction with
    | none => ([], true)
    | some d =>
      if geneStrand = d then
        match (if direction = ("+") then some (index + 1)
               else if direction = ("-") then some (index - 1)
               else none) with
        | none => ([], false)
        | some nextIndex =>
          match pyGet allGenes nextIndex with
          | none => ([], false)
          | some line =>
            match fasta2MetaData line with
            | none => ([], false)
            | some cand =>
              match cand.start with
              | none => ([], false)
              | some cstart =>
                if 8000 < (seq_start - cstart).natAbs then ([], false)
                else
                  match cand.direction with
                  | none => ([], false)
                  | some cd =>
                    let app :=
                      (geneStrand = ("-") ∧ cd = ("+") ∧ direction = ("+")) ∨
                      (geneStrand = ("+") ∧ cd = ("-") ∧ direction = ("-")) ∨
                      geneStrand = cd
                    let (rest, esc) :=
                      getGene allGenes seq_start geneStrand direction
                        fuel cand nextIndex
                    (if app then cand :: rest else rest, esc)
      else ([], false)

/-- The downstream block of `getOperon` (the first `try`): its value is the
`geneArray` right after that block.  Any exception inside the block — the
explicit `IndexError` for a negative `indexDOWN`, an out-of-range index, a
parse failure, the `KeyError` in the strand-flip check, or the `KeyError`
escaping `getGene` — is caught and leaves `geneArray = []`. -/
def downstreamGenes (allGenes : List String) (index seq_start : Int)
    (strand : String) : List MetaData :=
  if index - 1 < 0 then []
  else
    match pyGet allGenes (index - 1) with
    | none => []
    | some line =>
      match fasta2MetaData line with
      | none => []
      | some downGene =>
        match (if strand = ("+") then
                 downGene.direction.map
                   (fun d => if d = ("-") then d else strand)
               else some strand) with
        | none => []
        | some gs =>
          let (suffix, esc) :=
            getGene allGenes seq_start gs ("-")
              (2 * allGenes.length + 4) downGene (index - 1)
          if esc then [] else (downGene :: suffix).reverse

/-- The middle block of `getOperon`: append the query gene itself to
`geneArray`; a failure to index or parse is caught and appends nothing. -/
def queryPart (allGenes : List String) (index : Int) : List MetaData :=
  match pyGet allGenes index with
  | none => []
  | some line =>
    match fasta2MetaData line with
    | none => []
    | some current_gene => [current_gene]

/-- The upstream block of `getOperon` (the last `try`): the list of genes it
appends to `geneArray`.  The seed `upGene` is appended before `getGene` runs,
so when the `KeyError` escaping `getGene` is caught here the genes already
appended stay in `geneArray` (unlike the downstream block, which rebinds
`geneArray = []`). -/
def upstreamGenes (allGenes : List String) (index seq_start : Int)
    (strand : String) : List MetaData :=
  match pyGet allGenes (index + 1) with
  | none => []
  | some line =>
    match fasta2MetaData line with
    | none => []
    | some upGene =>
      match (if strand = ("-") then
               upGene.direction.map
                 (fun d => if d = ("+") then d else strand)
             else some strand) with
      | none => []
      | some gs =>
        let (suffix, _) :=
          getGene allGenes seq_start gs ("+")
            (2 * allGenes.length + 4) upGene (index + 1)
        upGene :: suffix

/-- `getOperon(allGenes, index, seq_start, strand)`: downstream genes
(reversed), then the query gene, then upstream genes; `regulatorIndex` is
computed as `len(geneArray) - 1` right after the query gene is appended and
before the upstream block runs. -/
def getOperon (allGenes : List String) (index seq_start : Int)
    (strand : String) : List MetaData × Int :=
  let geneArray2 :=
    downstreamGenes allGenes index seq_start strand ++ queryPart allGenes index
  let regulatorIndex : Int := (geneArray2.length : Int) - 1
  (geneArray2 ++ upstreamGenes allGenes index seq_start strand, regulatorIndex)

/-- `i[0] == ">"` on a genome line; raising `IndexError` on the empty string
is modelled by the caller. -/
def isHeader (l : String) : Bool :=
  match l.toList with
  | [] => false
  | c :: _ => c = '>'

/-- `re1.search(i) and re2.search(i)` for the metacharacter-free patterns the
repository passes (plain coordinate strings): both substrings occur in `i`. -/
def matchesBoth (start stop l : String) : Bool :=
  containsSub start.toList l.toList && containsSub stop.toList l.toList

/-- One iteration of the `for i in genome` loop of `parseGenome`, over the
state `(geneIndex, allGenes, regIndex)`; `regIndex` is `none` while the
variable is still unbound.  `none` overall = `i[0]` raised on an empty line. -/
def parseGenomeStep (start stop : String)
    (st : Nat × List String × Option Nat) (i : String) :
    Option (Nat × List String × Option Nat) :=
  match i.toList with
  | [] => none
  | c :: _ =>
    if c = '>' then
      let regIndex :=
        if matchesBoth start stop i then some st.1 else st.2.2
      some (st.1 + 1, st.2.1 ++ [i], regIndex)
    else some st

/-- The whole `for i in genome` loop of `parseGenome`. -/
def parseGenomeAux (start stop : String) :
    (Nat × List String × Option Nat) → List String →
    Option (Nat × List String × Option Nat)
  | st, [] => some st
  | st, l :: ls =>
    match parseGenomeStep start stop st l with
    | none => none
    | some st2 => parseGenomeAux start stop st2 ls

/-- `parseGenome(genome, start, stop)`: `none` when the loop raised on an
empty line or when no header matched both patterns (so that `return allGenes,
regIndex` raises `NameError` on the unbound `regIndex`). -/
def parseGenome (genome : List String) (start stop : String) :
    Option (List String × Nat) :=
  match parseGenomeAux start stop (0, [], none) genome with
  | none => none
  | some (_, _, none) => none
  | some (_, allGenes, some regIndex) => some (allGenes, regIndex)

/-- The `>`-prefixed lines of the genome, in order (what `parseGenome`
accumulates in `allGenes`). -/
def headerLines (genome : List String) : List String :=
  genome.filter (fun l => isHeader l)

/-- The gene ordinal recorded by `parseGenome`'s loop over `genome`, when the
counter starts at `n`: the ordinal of the *last* header line matching both
patterns (later assignments overwrite earlier ones). -/
def matchIndex (start stop : String) : List String → Nat → Option Nat
  | [], _ => none
  | l :: ls, n =>
    if isHeader l then
      match matchIndex start stop ls (n + 1) with
      | some k => some k
      | none => if matchesBoth start stop l then some n else none
    else matchIndex start stop ls n

/-- The reference strand the spec prescribes for the downstream walk, from
the query strand and the downstream seed's strand ("if the query gene's
strand is `+` and the downstream seed's strand is `-`, set `referenceStrand`
to the seed's strand"). -/
def refStrandDown_spec (strand seedDir : String) : String :=
  if strand = ("+") ∧ seedDir = ("-") then seedDir else strand

/-- The reference strand the spec prescribes for the upstream walk ("the
query's strand is `-` and the upstream seed's strand is `+`"). -/
def refStrandUp_spec (strand seedDir : String) : String :=
  if strand = ("-") ∧ seedDir = ("+") then seedDir else strand

/-- A token is acceptable to the location branch of `fasta2MetaData`: if it
begins with `location=`, the coordinate text must split on `..` into at least
two parts whose first two each contain a digit (spec §4.1: `location=A..B]`
or `location=complement(A..B)]` with numeric extraction keeping only
digits). -/
def locationTokenOK (i : List Char) : Bool :=
  if i.take 9 = (("location=").toList) then
    match pySplit (("..").toList) (locationSlice i) with
    | p0 :: p1 :: _ =>
      decide (digitsOnly p0 ≠ []) && decide (digitsOnly p1 ≠ [])
    | _ => false
  else true

/-- A valid bracketed annotation line (spec §4.1): every `" ["`-separated
token whose key is `location=` carries well-formed coordinates.  The other
recognized keys can never make the parser raise. -/
def validLine (fasta : String) : Bool :=
  (pySplit ((" [").toList) fasta.toList).all locationTokenOK

/-! ## Helper lemmas about the extension loop -/

/-- The `while` condition of `getGene` can only raise (escape) when the
current gene's `direction` key is missing; a gene whose record carries a
`direction` never makes the loop escape, because every gene the loop moves on
to has had its `direction` read inside the guarded body. -/
theorem getGene_noEscape (allGenes : List String) (seq_start : Int)
    (gs dir : String) :
    ∀ (fuel : Nat) (g : MetaData) (idx : Int), g.direction.isSome →
      (getGene allGenes seq_start gs dir fuel g idx).2 = false := by
  intro fuel
  induction fuel with
  | zero => intro g idx _; rfl
  | succ n ih =>
    intro g idx h
    obtain ⟨d, hd⟩ := Option.isSome_iff_exists.mp h
    simp only [getGene, hd]
    split
    · split
      next => rfl
      next nextIndex _ =>
        split
        next => rfl
        next line _ =>
          split
          next => rfl
          next cand _ =>
            split
            next => rfl
            next cstart _ =>
              split
              next => rfl
              next =>
                split
                next => rfl
                next cd hcd =>
                  have h2 := ih cand nextIndex
                    (Option.isSome_iff_exists.mpr ⟨cd, hcd⟩)
                  rcases hg : getGene allGenes seq_start gs dir n cand nextIndex
                    with ⟨rest, esc⟩
                  rw [hg] at h2
                  simp only [hg]
                  simpa using h2
    · rfl

/-! ## Claim theorems -/

/-- Input exhibiting the downstream walk's negative-index wraparound: three
forward-strand genes, query at index 1. -/
def c1Genes : List String :=
  [(">c1a [location=1..100]"), (">c1b [location=200..300]"),
   (">c1c [location=300..400]")]

/-- Shorthand for a parsed record of `c1Genes`. -/
def c1md (d : String) (s e : Int) : MetaData :=
  ⟨none, none, some (""), some d, some s, some e⟩

/-- Claim C1 (code bug): the claim says each directional walk's extension
loop terminates as soon as the next index runs past the start of the gene
sequence, so the downstream extension never includes genes beyond the query
index.  The code instead lets the cursor go negative, and Python list
indexing wraps around: on `c1Genes` with query index 1 the downstream block
returns four genes, including the record of the gene at index 2 (past the
query) and a duplicate of the gene at index 0.  The seed step's own explicit
`if indexDOWN < 0: raise IndexError` guard shows the intended treatment of
negative indices. -/
theorem c1_downstream_wraparound :
    downstreamGenes c1Genes 1 200 ("+")
      = [c1md ("+") 1 100, c1md ("+") 200 300, c1md ("+") 300 400,
         c1md ("+") 1 100]
    ∧ fasta2MetaData (c1Genes.get ⟨2, by decide⟩) = some (c1md ("+") 300 400) := by
  decide

/-- Input for claim C4's minus-strand case: the spec's three-header example
with `g2` on the reverse strand. -/
def c4Genes : List String :=
  [(">g0 [location=1..100]"), (">g1 [location=200..300]"),
   (">g2 [location=complement(400..500)]")]

/-- Input for claim C4's plus-strand case: the same example with `g2` on the
forward strand. -/
def c4GenesP : List String :=
  [(">g0 [location=1..100]"), (">g1 [location=200..300]"),
   (">g2 [location=400..500]")]

/-- Shorthand for a parsed record of the C4 inputs. -/
def c4md (d : String) (s e : Int) : MetaData :=
  ⟨none, none, some (""), some d, some s, some e⟩

/-- Claim C4 counterexample: with `g2` on strand `-`, the claim says the
returned operon contains only `g0` and `g1` with `g2` excluded; the code
returns an operon that contains `g2`'s record (twice: once pulled in by the
downstream walk through negative-index wraparound, once as the unconditional
upstream seed). -/
theorem c4_counterexample :
    c4md ("-") 400 500 ∈ (getOperon c4Genes 1 200 ("+")).1
    ∧ (getOperon c4Genes 1 200 ("+")).1
        ≠ [c4md ("+") 1 100, c4md ("+") 200 300] := by
  decide

/-- Claim C4 (amended): with `g2` on strand `+` it is included by the
upstream walk; with `g2` on strand `-` the returned operon is
`[g2, g0, g1, g2]` with `regulatorIndex = 2` — `g2` enters once through the
downstream walk's negative-index wraparound (special divergence rule) and
once as the unconditional upstream seed — rather than only `[g0, g1]`. -/
theorem c4_amended :
    c4md ("+") 400 500 ∈ upstreamGenes c4GenesP 1 200 ("+")
    ∧ getOperon c4Genes 1 200 ("+")
        = ([c4md ("-") 400 500, c4md ("+") 1 100, c4md ("+") 200 300,
            c4md ("-") 400 500], 2) := by
  decide

/-- Claim C7 counterexample: the parser returns a record for a line with no
bracketed fields at all, and that record has `description`, `direction`,
`start` and `stop` all absent — only `link` is populated (defaulted to the
empty string).  The claimed invariant that every returned record has
`direction`, `start`, `stop`, `description` and `link` populated is false. -/
theorem c7_counterexample :
    fasta2MetaData (">orf trailing text")
      = some ⟨none, none, some (""), none, none, none⟩ := by
  decide

/-- Input for claim C2's counterexample: a reverse-strand query whose
upstream neighbor line parses (to a record with no `direction` key). -/
def c2Genes : List String :=
  [(">c2q [location=complement(100..200)]"), ("C2X")]

/-- Claim C2 counterexample: the upstream seed index 1 is in bounds and the
record there parses (`fasta2MetaData` returns a record without raising), yet
with query strand `-` the seed is not included — the strand-flip check
`upGene["direction"]` raises `KeyError` first — so the seed is not
"unconditionally included whenever the index is in bounds and the record
parses". -/
theorem c2_counterexample :
    (pyGet c2Genes 1).isSome = true
    ∧ (fasta2MetaData ("C2X")).isSome = true
    ∧ getOperon c2Genes 0 100 ("-")
        = ([⟨none, none, some (""), some ("-"), some 100, some 200⟩], 0)
    ∧ (⟨none, none, some (""), none, none, none⟩ : MetaData)
        ∉ (getOperon c2Genes 0 100 ("-")).1 := by
  decide

/-- Claim C2 (amended): for either directional walk, (i) if the seed index is
out of bounds (for the downstream walk, also the explicitly guarded negative
index) or `fasta2MetaData` raises on the seed line, the walk contributes no
genes and no error reaches the caller; (ii) whenever the seed index is in
bounds and the seed parses to a record whose `direction` field is populated,
that record is unconditionally included in the walk's result, regardless of
its strand.  (The original claim is falsified by a seed record that parses
without a `direction` field, see the counterexample.) -/
theorem c2_seed_rule_amended (allGenes : List String) (index seq_start : Int)
    (strand : String) :
    ((index - 1 < 0 ∨ pyGet allGenes (index - 1) = none ∨
        (∀ ln, pyGet allGenes (index - 1) = some ln → fasta2MetaData ln = none)) →
      downstreamGenes allGenes index seq_start strand = []) ∧
    ((pyGet allGenes (index + 1) = none ∨
        (∀ ln, pyGet allGenes (index + 1) = some ln → fasta2MetaData ln = none)) →
      upstreamGenes allGenes index seq_start strand = []) ∧
    (∀ ln r, ¬ index - 1 < 0 → pyGet allGenes (index - 1) = some ln →
      fasta2MetaData ln = some r → r.direction.isSome →
      r ∈ downstreamGenes allGenes index seq_start strand) ∧
    (∀ ln r, pyGet allGenes (index + 1) = some ln →
      fasta2MetaData ln = some r → r.direction.isSome →
      r ∈ upstreamGenes allGenes index seq_start strand) := by
  refine ⟨?_, ?_, ?_, ?_⟩
  · intro h
    unfold downstreamGenes
    rcases h with h | h | h
    · simp [h]
    · split
      · rfl
      · simp [h]
    · split
      next hlt => rfl
      next hlt =>
        rcases hg : pyGet allGenes (index - 1) with _ | ln
        · simp [hg]
        · simp [hg, h ln hg]
  · intro h
    unfold upstreamGenes
    rcases h with h | h
    · simp [h]
    · rcases hg : pyGet allGenes (index + 1) with _ | ln
      · simp [hg]
      · simp [hg, h ln hg]
  · intro ln r hlt hg hp hdir
    obtain ⟨d, hd⟩ := Option.isSome_iff_exists.mp hdir
    unfold downstreamGenes
    simp only [if_neg hlt, hg, hp]
    have hesc : ∀ gs, (getGene allGenes seq_start gs ("-")
        (2 * allGenes.length + 4) r (index - 1)).2 = false :=
      fun gs => getGene_noEscape allGenes seq_start gs ("-") _ r (index - 1) hdir
    rcases hsel : (if strand = ("+") then
        Option.map (fun d => if d = ("-") then d else strand) r.direction
      else some strand) with _ | gs
    · exfalso
      by_cases hs : strand = ("+")
      · simp [hs, hd] at hsel
      · simp [hs] at hsel
    · simp only [hsel]
      rcases hg2 : getGene allGenes seq_start gs
          ("-") (2 * allGenes.length + 4) r (index - 1) with ⟨suffix, esc⟩
      have h2 := hesc gs
      rw [hg2] at h2
      simp only at h2
      simp [hg2, h2]
  · intro ln r hg hp hdir
    unfold upstreamGenes
    simp only [hg, hp]
    rcases hsel : (if strand = ("-") then
        Option.map (fun d => if d = ("+") then d else strand) r.direction
      else some strand) with _ | gs
    · exfalso
      obtain ⟨d, hd⟩ := Option.isSome_iff_exists.mp hdir
      by_cases hs : strand = ("-")
      · simp [hs, hd] at hsel
      · simp [hs] at hsel
    · simp only [hsel]
      rcases hg2 : getGene allGenes seq_start gs
          ("+") (2 * allGenes.length + 4) r (index + 1) with ⟨suffix, esc⟩
      simp [hg2]

/-- Input for the C2 witness: two forward-strand genes, query at index 1.  -/
def c2wGenes : List String :=
  [(">w0 [location=5..50]"), (">w1 [location=60..80]")]

/-- Witness for the amended claim C2: on `c2wGenes` with query index 1, the
downstream seed (gene 0, with a populated direction) is included, and the
upstream walk (index 2, out of bounds) contributes nothing. -/
theorem c2_seed_rule_amended_witness :
    (⟨none, none, some (""), some ("+"), some 5, some 50⟩ : MetaData)
      ∈ downstreamGenes c2wGenes 1 60 ("+")
    ∧ upstreamGenes c2wGenes 1 60 ("+") = [] := by
  have h := c2_seed_rule_amended c2wGenes 1 60 ("+")
  exact ⟨h.2.2.1 (">w0 [location=5..50]")
      ⟨none, none, some (""), some ("+"), some 5, some 50⟩
      (by decide) (by decide) (by decide) (by decide),
    h.2.1 (Or.inl (by decide))⟩

/-- Claim C3: in any extension step of either directional walk — at an
arbitrary intermediate state (any fuel, any current gene `g`, any cursor
`index`) — the distance test compares the candidate's `start` against the
walk's fixed `seq_start` parameter (the original query gene's start, threaded
unchanged through the recursion — never the most recently added gene's
start): a same-strand candidate at distance exactly 8001 is not added and the
walk stops; one at distance exactly 8000 is added (it is the next gene
appended). -/
theorem c3_distance_cutoff (allGenes : List String) (seq_start : Int)
    (gs dir : String) (fuel : Nat) (g cand : MetaData) (index nextIndex : Int)
    (line : String) (cstart : Int) (d cd : String)
    (hd : g.direction = some d) (hgs : gs = d)
    (hni : (dir = ("+") ∧ nextIndex = index + 1) ∨
           (dir = ("-") ∧ nextIndex = index - 1))
    (hline : pyGet allGenes nextIndex = some line)
    (hparse : fasta2MetaData line = some cand)
    (hcs : cand.start = some cstart) (hcd : cand.direction = some cd)
    (hsame : cd = gs) :
    ((seq_start - cstart).natAbs = 8001 →
      getGene allGenes seq_start gs dir (fuel + 1) g index = ([], false)) ∧
    ((seq_start - cstart).natAbs = 8000 →
      (getGene allGenes seq_start gs dir (fuel + 1) g index).1.head?
        = some cand) := by
  have hsel : (if dir = ("+") then some (index + 1)
      else if dir = ("-") then some (index - 1) else none) = some nextIndex := by
    rcases hni with ⟨h1, h2⟩ | ⟨h1, h2⟩
    · simp [h1, h2]
    · rcases eq_or_ne dir ("+") with h3 | h3
      · rw [h1] at h3
        exact absurd h3 (by decide)
      · simp [h1, h2, h3]
  constructor
  · intro h8001
    simp only [getGene, hd, if_pos hgs, hsel, hline, hparse, hcs, h8001]
    norm_num
  · intro h8000
    simp only [getGene, hd, if_pos hgs, hsel, hline, hparse, hcs, h8000, hcd]
    norm_num
    rcases hg2 : getGene allGenes seq_start gs dir fuel cand nextIndex
      with ⟨rest, esc⟩
    simp [hg2, hsame]

/-- Input for the C3 witness, 8001 case: walking upstream from index 0 with
the query start at 0, the candidate at index 1 starts at 8001. -/
def c3aGenes : List String :=
  [(">c3x [location=1..10]"), (">c3y [location=8001..8050]")]

/-- Input for the C3 witness, 8000 case: as `c3aGenes` but the candidate
starts at 8000. -/
def c3bGenes : List String :=
  [(">c3x [location=1..10]"), (">c3z [location=8000..8050]")]

/-- The current gene for the C3 and C10 witnesses (a forward-strand seed). -/
def c3seed : MetaData := ⟨none, none, some (""), some ("+"), some 1, some 10⟩

/-- Witness for claim C3: at query start 0, the same-strand candidate at
start 8001 stops the walk with nothing added, and the candidate at start 8000
is appended. -/
theorem c3_distance_cutoff_witness :
    getGene c3aGenes 0 ("+") ("+") 5 c3seed 0 = ([], false)
    ∧ (getGene c3bGenes 0 ("+") ("+") 5 c3seed 0).1.head?
        = some ⟨none, none, some (""), some ("+"), some 8000, some 8050⟩ := by
  constructor
  · exact (c3_distance_cutoff c3aGenes 0 ("+") ("+") 4 c3seed
      ⟨none, none, some (""), some ("+"), some 8001, some 8050⟩ 0 1
      (">c3y [location=8001..8050]") 8001 ("+") ("+")
      (by decide) (by decide) (Or.inl ⟨rfl, by decide⟩)
      (by decide) (by decide) (by decide) (by decide) (by decide)).1 (by decide)
  · exact (c3_distance_cutoff c3bGenes 0 ("+") ("+") 4 c3seed
      ⟨none, none, some (""), some ("+"), some 8000, some 8050⟩ 0 1
      (">c3z [location=8000..8050]") 8000 ("+") ("+")
      (by decide) (by decide) (Or.inl ⟨rfl, by decide⟩)
      (by decide) (by decide) (by decide) (by decide) (by decide)).2 (by decide)

/-- Claim C10: in any extension step of either directional walk, a candidate
admitted by the special divergence rule (its strand differs from the walk's
reference strand `gs`) is the last gene that walk adds: the loop condition
`gs == candidate.direction` fails on re-entry, so the walk returns exactly
the genes so far plus that one candidate, with no escaping error. -/
theorem c10_divergent_terminal (allGenes : List String) (seq_start : Int)
    (gs dir : String) (fuel : Nat) (g cand : MetaData) (index nextIndex : Int)
    (line : String) (cstart : Int) (d cd : String)
    (hd : g.direction = some d) (hgs : gs = d)
    (hni : (dir = ("+") ∧ nextIndex = index + 1) ∨
           (dir = ("-") ∧ nextIndex = index - 1))
    (hline : pyGet allGenes nextIndex = some line)
    (hparse : fasta2MetaData line = some cand)
    (hcs : cand.start = some cstart)
    (hdist : (seq_start - cstart).natAbs ≤ 8000)
    (hcd : cand.direction = some cd)
    (hspec : (gs = ("-") ∧ cd = ("+") ∧ dir = ("+")) ∨
             (gs = ("+") ∧ cd = ("-") ∧ dir = ("-"))) :
    getGene allGenes seq_start gs dir (fuel + 1) g index = ([cand], false) := by
  have hsel : (if dir = ("+") then some (index + 1)
      else if dir = ("-") then some (index - 1) else none) = some nextIndex := by
    rcases hni with ⟨h1, h2⟩ | ⟨h1, h2⟩
    · simp [h1, h2]
    · rcases eq_or_ne dir ("+") with h3 | h3
      · rw [h1] at h3
        exact absurd h3 (by decide)
      · simp [h1, h2, h3]
  have hne : ¬ gs = cd := by
    rcases hspec with ⟨h1, h2, _⟩ | ⟨h1, h2, _⟩ <;> rw [h1, h2] <;> decide
  have hnd : ¬ 8000 < (seq_start - cstart).natAbs := by omega
  have htail : getGene allGenes seq_start gs dir fuel cand nextIndex
      = ([], false) := by
    cases fuel with
    | zero => rfl
    | succ m => simp [getGene, hcd, hne]
  simp only [getGene, hd, if_pos hgs, hsel, hline, hparse, hcs, if_neg hnd,
    hcd, htail]
  rcases hspec with ⟨h1, h2, h3⟩ | ⟨h1, h2, h3⟩ <;> simp [h1, h2, h3]

/-- Input for the C10 witness: a forward-strand gene at index 0, a
reverse-strand gene at index 1. -/
def c10Genes : List String :=
  [(">c10a [location=1..10]"), (">c10b [location=complement(600..700)]")]

/-- Witness for claim C10: walking downstream (direction `-`) with reference
strand `+` from index 2, the reverse-strand candidate at index 1 is admitted
by the special divergence rule and is the last gene added. -/
theorem c10_divergent_terminal_witness :
    getGene c10Genes 650 ("+") ("-") 7 c3seed 2
      = ([⟨none, none, some (""), some ("-"), some 600, some 700⟩], false) := by
  exact c10_divergent_terminal c10Genes 650 ("+") ("-") 6 c3seed
    ⟨none, none, some (""), some ("-"), some 600, some 700⟩ 2 1
    (">c10b [location=complement(600..700)]") 600 ("+") ("-")
    (by decide) (by decide) (Or.inr ⟨rfl, by decide⟩)
    (by decide) (by decide) (by decide) (by decide) (by decide)
    (Or.inr ⟨rfl, rfl, rfl⟩)

/-- Claim C5: whenever the query gene itself can be indexed and parsed (as is
guaranteed at the call site, which parses `allGenes[index]` before calling
`getOperon`), the returned `regulatorIndex` equals the length of the reversed
downstream result list, and the gene at that position of the final
concatenated operon is the query gene; this is well-defined even when both
walks are empty. -/
theorem c5_regulatorIndex (allGenes : List String) (index seq_start : Int)
    (strand : String) (ln : String) (r : MetaData)
    (h1 : pyGet allGenes index = some ln)
    (h2 : fasta2MetaData ln = some r) :
    (getOperon allGenes index seq_start strand).2
      = ((downstreamGenes allGenes index seq_start strand).length : Int)
    ∧ (getOperon allGenes index seq_start strand).1.get?
        (downstreamGenes allGenes index seq_start strand).length = some r := by
  have hq : queryPart allGenes index = [r] := by
    unfold queryPart
    simp [h1, h2]
  constructor
  · simp only [getOperon, hq, List.length_append, List.length_cons,
      List.length_nil]
    push_cast
    ring
  · simp only [getOperon, hq]
    rw [List.append_assoc, List.get?_append_right (Nat.le_refl _)]
    simp

/-- Input for the C5 witness: a single-gene list holding only the query. -/
def c5Genes : List String := [(">c5q [location=7..70]")]

/-- Witness for claim C5: on a gene list of length 1 the code returns
`([query], 0)`, and the returned index equals the (empty) downstream list's
length by `c5_regulatorIndex`. -/
theorem c5_regulatorIndex_witness :
    getOperon c5Genes 0 7 ("+")
      = ([⟨none, none, some (""), some ("+"), some 7, some 70⟩], 0)
    ∧ (getOperon c5Genes 0 7 ("+")).2
        = ((downstreamGenes c5Genes 0 7 ("+")).length : Int) := by
  exact ⟨by decide,
    (c5_regulatorIndex c5Genes 0 7 ("+") (">c5q [location=7..70]")
      ⟨none, none, some (""), some ("+"), some 7, some 70⟩
      (by decide) (by decide)).1⟩

/-- Claim C6: each directional walk's extension loop runs with a single
reference strand, fixed for the whole walk (it is a constant parameter of
`getGene`), and that strand is exactly the one the strand-flip rule
prescribes at the seed step: the downstream walk flips to the seed's strand
precisely when the query strand is `+` and the seed's strand is `-`, the
upstream walk precisely when the query strand is `-` and the seed's strand is
`+`, and in every other case the walk keeps the query strand. -/
theorem c6_strand_flip (allGenes : List String) (index seq_start : Int)
    (strand : String) (lnD lnU : String) (rD rU : MetaData) (dD dU : String)
    (hD0 : ¬ index - 1 < 0) (hD1 : pyGet allGenes (index - 1) = some lnD)
    (hD2 : fasta2MetaData lnD = some rD) (hD3 : rD.direction = some dD)
    (hU1 : pyGet allGenes (index + 1) = some lnU)
    (hU2 : fasta2MetaData lnU = some rU) (hU3 : rU.direction = some dU) :
    downstreamGenes allGenes index seq_start strand
      = (rD :: (getGene allGenes seq_start (refStrandDown_spec strand dD) ("-")
          (2 * allGenes.length + 4) rD (index - 1)).1).reverse
    ∧ upstreamGenes allGenes index seq_start strand
      = rU :: (getGene allGenes seq_start (refStrandUp_spec strand dU) ("+")
          (2 * allGenes.length + 4) rU (index + 1)).1 := by
  constructor
  · unfold downstreamGenes
    simp only [if_neg hD0, hD1, hD2]
    have hsel : (if strand = ("+") then
        Option.map (fun d => if d = ("-") then d else strand) rD.direction
      else some strand) = some (refStrandDown_spec strand dD) := by
      unfold refStrandDown_spec
      by_cases hs : strand = ("+")
      · simp only [if_pos hs, hD3, Option.map_some]
        by_cases hdm : dD = ("-")
        · simp [hdm, hs]
        · simp [hdm, hs]
      · simp only [if_neg hs]
        have : ¬ (strand = ("+") ∧ dD = ("-")) := fun h => hs h.1
        simp [this]
    simp only [hsel]
    have hesc := getGene_noEscape allGenes seq_start (refStrandDown_spec strand dD)
      ("-") (2 * allGenes.length + 4) rD (index - 1)
      (Option.isSome_iff_exists.mpr ⟨dD, hD3⟩)
    rcases hg2 : getGene allGenes seq_start (refStrandDown_spec strand dD)
        ("-") (2 * allGenes.length + 4) rD (index - 1) with ⟨suffix, esc⟩
    rw [hg2] at hesc
    simp only at hesc
    simp [hg2, hesc]
  · unfold upstreamGenes
    simp only [hU1, hU2]
    have hsel : (if strand = ("-") then
        Option.map (fun d => if d = ("+") then d else strand) rU.direction
      else some strand) = some (refStrandUp_spec strand dU) := by
      unfold refStrandUp_spec
      by_cases hs : strand = ("-")
      · simp only [if_pos hs, hU3, Option.map_some]
        by_cases hdm : dU = ("+")
        · simp [hdm, hs]
        · simp [hdm, hs]
      · simp only [if_neg hs]
        have : ¬ (strand = ("-") ∧ dU = ("+")) := fun h => hs h.1
        simp [this]
    simp only [hsel]

/-- Input for the C6 witness: a divergent downstream seed (reverse strand)
and an upstream seed on the query's own strand. -/
def c6Genes : List String :=
  [(">c6a [location=complement(1..90)]"), (">c6b [location=150..260]"),
   (">c6c [location=350..460]")]

/-- Witness for claim C6 at a concrete input with query strand `+`: the
downstream walk runs with the flipped reference strand `-` (its seed is
divergent), the upstream walk keeps `+`. -/
theorem c6_strand_flip_witness :
    downstreamGenes c6Genes 1 150 ("+")
      = (⟨none, none, some (""), some ("-"), some 1, some 90⟩ ::
          (getGene c6Genes 150 (refStrandDown_spec ("+") ("-")) ("-") 10
            ⟨none, none, some (""), some ("-"), some 1, some 90⟩ 0).1).reverse
    ∧ upstreamGenes c6Genes 1 150 ("+")
      = ⟨none, none, some (""), some ("+"), some 350, some 460⟩ ::
          (getGene c6Genes 150 (refStrandUp_spec ("+") ("+")) ("+") 10
            ⟨none, none, some (""), some ("+"), some 350, some 460⟩ 2).1 := by
  exact c6_strand_flip c6Genes 1 150 ("+")
    (">c6a [location=complement(1..90)]") (">c6c [location=350..460]")
    ⟨none, none, some (""), some ("-"), some 1, some 90⟩
    ⟨none, none, some (""), some ("+"), some 350, some 460⟩
    ("-") ("+")
    (by decide) (by decide) (by decide) (by decide)
    (by decide) (by decide) (by decide)

/-! ## Helper lemmas about the token loop of the parser -/

/-- One token step preserves the together-ness of `direction`, `start` and
`stop`: the location branch assigns all three, no other branch touches any of
them. -/
theorem applyToken_dss (md md2 : MetaData) (t : List Char)
    (h : applyToken md t = some md2)
    (h1 : md.direction.isSome = md.start.isSome)
    (h2 : md.direction.isSome = md.stop.isSome) :
    md2.direction.isSome = md2.start.isSome
      ∧ md2.direction.isSome = md2.stop.isSome := by
  unfold applyToken at h
  repeat' split at h
  all_goals
    first
    | exact Option.noConfusion h
    | (injection h with h
       subst h
       first
       | exact ⟨h1, h2⟩
       | exact ⟨rfl, rfl⟩)

/-- The whole token loop preserves the together-ness of `direction`, `start`
and `stop`. -/
theorem applyTokens_dss : ∀ (ts : List (List Char)) (md md2 : MetaData),
    applyTokens md ts = some md2 →
    md.direction.isSome = md.start.isSome →
    md.direction.isSome = md.stop.isSome →
    md2.direction.isSome = md2.start.isSome
      ∧ md2.direction.isSome = md2.stop.isSome := by
  intro ts
  induction ts with
  | nil =>
    intro md md2 h h1 h2
    injection h with h
    subst h
    exact ⟨h1, h2⟩
  | cons t ts ih =>
    intro md md2 h h1 h2
    unfold applyTokens at h
    rcases ha : applyToken md t with _ | md1
    · rw [ha] at h
      exact absurd h (by simp)
    · rw [ha] at h
      obtain ⟨g1, g2⟩ := applyToken_dss md md1 t ha h1 h2
      exact ih md1 md2 h g1 g2

/-- Claim C7 (amended): every record the parser returns (without raising) has
`link` populated (defaulted to the empty string when no `protein_id` token
was seen), and its `direction`, `start` and `stop` are populated together —
all three or none of them; `description` and `alias`, like the trio, may be
absent when the corresponding bracketed fields are missing.  (The original
claim — `direction`, `start`, `stop` and `description` always populated — is
falsified by the counterexample.) -/
theorem c7_amended (fasta : String) (r : MetaData)
    (h : fasta2MetaData fasta = some r) :
    r.link.isSome = true
    ∧ r.direction.isSome = r.start.isSome
    ∧ r.direction.isSome = r.stop.isSome := by
  unfold fasta2MetaData at h
  rcases ha : applyTokens MetaData.empty (pySplit ((" [").toList) fasta.toList)
    with _ | md
  · rw [ha] at h
    exact absurd h (by simp)
  · rw [ha] at h
    injection h with h
    obtain ⟨g1, g2⟩ := applyTokens_dss _ MetaData.empty md ha rfl rfl
    subst h
    by_cases hl : md.link.isNone
    · have hthen : (if md.link.isNone then { md with link := some ("") }
          else md) = { md with link := some ("") } := by simp [hl]
      rw [hthen]
      exact ⟨rfl, g1, g2⟩
    · have hthen : (if md.link.isNone then { md with link := some ("") }
          else md) = md := by simp [hl]
      rw [hthen]
      refine ⟨?_, g1, g2⟩
      rcases hml : md.link with _ | v
      · rw [hml] at hl
        exact absurd rfl hl
      · simp [hml]

/-- Witness for the amended claim C7 at a concrete annotation line. -/
theorem c7_amended_witness :
    (⟨none, none, some (""), some ("+"), some 12, some 34⟩
        : MetaData).link.isSome = true
    ∧ (⟨none, none, some (""), some ("+"), some 12, some 34⟩
        : MetaData).direction.isSome
      = (⟨none, none, some (""), some ("+"), some 12, some 34⟩
        : MetaData).start.isSome := by
  have h := c7_amended (">c7w [location=12..34]")
    ⟨none, none, some (""), some ("+"), some 12, some 34⟩ (by decide)
  exact ⟨h.1, h.2.1⟩

/-- Everything `digitsOnly` keeps is a digit. -/
theorem digitsOnly_all (s : List Char) : (digitsOnly s).all Char.isDigit = true := by
  rw [List.all_eq_true]
  intro c hc
  exact (List.mem_filter.mp hc).2

/-- `int` cannot fail on a non-empty all-digits string. -/
theorem intOfDigits_digitsOnly_isSome (p : List Char) (h : digitsOnly p ≠ []) :
    (intOfDigits (digitsOnly p)).isSome = true := by
  unfold intOfDigits
  rw [if_neg]
  · rfl
  · push_neg
    exact ⟨h, by simp [digitsOnly_all p]⟩

/-- A token acceptable to the location branch never makes one step of the
token loop raise. -/
theorem applyToken_total (md : MetaData) (t : List Char)
    (h : locationTokenOK t = true) : (applyToken md t).isSome = true := by
  unfold applyToken
  split
  next => rfl
  next =>
    split
    next => rfl
    next =>
      split
      next => rfl
      next =>
        split
        next h9 =>
          unfold locationTokenOK at h
          rw [if_pos h9] at h
          rcases hps : pySplit (("..").toList) (locationSlice t)
            with _ | ⟨p0, _ | ⟨p1, tl⟩⟩
          · rw [hps] at h
            exact Bool.noConfusion h
          · rw [hps] at h
            exact Bool.noConfusion h
          · rw [hps] at h
            rw [Bool.and_eq_true, decide_eq_true_eq, decide_eq_true_eq] at h
            obtain ⟨hp0, hp1⟩ := h
            obtain ⟨a, ha⟩ := Option.isSome_iff_exists.mp
              (intOfDigits_digitsOnly_isSome p0 hp0)
            obtain ⟨b, hb⟩ := Option.isSome_iff_exists.mp
              (intOfDigits_digitsOnly_isSome p1 hp1)
            simp [hps, ha, hb]
        next => rfl

/-- The token loop never raises when every token is acceptable. -/
theorem applyTokens_total : ∀ (ts : List (List Char)) (md : MetaData),
    (∀ t ∈ ts, locationTokenOK t = true) →
    (applyTokens md ts).isSome = true := by
  intro ts
  induction ts with
  | nil => intro md _; rfl
  | cons t ts ih =>
    intro md hall
    obtain ⟨md1, h1⟩ := Option.isSome_iff_exists.mp
      (applyToken_total md t (hall t (List.mem_cons_self t ts)))
    unfold applyTokens
    rw [h1]
    exact ih md1 (fun u hu => hall u (List.mem_cons_of_mem t hu))

/-- One token step leaves untouched every field whose key prefix the token
does not carry. -/
theorem applyToken_preserve (md md2 : MetaData) (t : List Char)
    (h : applyToken md t = some md2) :
    (t.take 10 ≠ (("locus_tag=").toList) → md2.aliasF = md.aliasF)
    ∧ (t.take 8 ≠ (("protein=").toList) → md2.description = md.description)
    ∧ (t.take 11 ≠ (("protein_id=").toList) → md2.link = md.link)
    ∧ (t.take 9 ≠ (("location=").toList) →
        md2.direction = md.direction ∧ md2.start = md.start
          ∧ md2.stop = md.stop) := by
  unfold applyToken at h
  repeat' split at h
  all_goals
    first
    | exact Option.noConfusion h
    | (injection h with h
       subst h
       refine ⟨?_, ?_, ?_, ?_⟩ <;> intro hx <;>
         first
         | rfl
         | exact ⟨rfl, rfl, rfl⟩
         | exact absurd (by assumption) hx)

/-- The whole token loop leaves untouched every field none of whose key
prefixes occurs among the tokens. -/
theorem applyTokens_preserve : ∀ (ts : List (List Char)) (md md2 : MetaData),
    applyTokens md ts = some md2 →
    ((∀ t ∈ ts, t.take 10 ≠ (("locus_tag=").toList)) → md2.aliasF = md.aliasF)
    ∧ ((∀ t ∈ ts, t.take 8 ≠ (("protein=").toList)) →
        md2.description = md.description)
    ∧ ((∀ t ∈ ts, t.take 11 ≠ (("protein_id=").toList)) → md2.link = md.link)
    ∧ ((∀ t ∈ ts, t.take 9 ≠ (("location=").toList)) →
        md2.direction = md.direction ∧ md2.start = md.start
          ∧ md2.stop = md.stop) := by
  intro ts
  induction ts with
  | nil =>
    intro md md2 h
    injection h with h
    subst h
    exact ⟨fun _ => rfl, fun _ => rfl, fun _ => rfl, fun _ => ⟨rfl, rfl, rfl⟩⟩
  | cons t ts ih =>
    intro md md2 h
    unfold applyTokens at h
    rcases ha : applyToken md t with _ | md1
    · rw [ha] at h
      exact Option.noConfusion h
    · rw [ha] at h
      obtain ⟨s1, s2, s3, s4⟩ := applyToken_preserve md md1 t ha
      obtain ⟨i1, i2, i3, i4⟩ := ih md1 md2 h
      refine ⟨?_, ?_, ?_, ?_⟩
      · intro hall
        rw [i1 (fun u hu => hall u (List.mem_cons_of_mem t hu)),
          s1 (hall t (List.mem_cons_self t ts))]
      · intro hall
        rw [i2 (fun u hu => hall u (List.mem_cons_of_mem t hu)),
          s2 (hall t (List.mem_cons_self t ts))]
      · intro hall
        rw [i3 (fun u hu => hall u (List.mem_cons_of_mem t hu)),
          s3 (hall t (List.mem_cons_self t ts))]
      · intro hall
        obtain ⟨a1, a2, a3⟩ := s4 (hall t (List.mem_cons_self t ts))
        obtain ⟨b1, b2, b3⟩ := i4 (fun u hu => hall u (List.mem_cons_of_mem t hu))
        exact ⟨b1.trans a1, b2.trans a2, b3.trans a3⟩

/-- Claim C8: on every valid bracketed annotation line the parser is total —
`fasta2MetaData` returns a record and never raises — and deterministic (the
embedding is a pure function of the line; the source reads no mutable global
state), and a line lacking an expected bracketed `key=value` field yields a
record whose corresponding field is left unset (`alias`, `description`,
`direction`/`start`/`stop`) or defaulted (`link` becomes the empty string),
rather than an error. -/
theorem c8_parser_total_on_valid (fasta : String)
    (h : validLine fasta = true) :
    (fasta2MetaData fasta).isSome = true
    ∧ (∀ r, fasta2MetaData fasta = some r →
      ((∀ t ∈ pySplit ((" [").toList) fasta.toList,
          t.take 10 ≠ (("locus_tag=").toList)) → r.aliasF = none)
      ∧ ((∀ t ∈ pySplit ((" [").toList) fasta.toList,
          t.take 8 ≠ (("protein=").toList)) → r.description = none)
      ∧ ((∀ t ∈ pySplit ((" [").toList) fasta.toList,
          t.take 11 ≠ (("protein_id=").toList)) → r.link = some (""))
      ∧ ((∀ t ∈ pySplit ((" [").toList) fasta.toList,
          t.take 9 ≠ (("location=").toList)) →
          r.direction = none ∧ r.start = none ∧ r.stop = none)) := by
  have htot := applyTokens_total (pySplit ((" [").toList) fasta.toList)
    MetaData.empty (fun t ht => by
      have := (List.all_eq_true.mp h) t ht
      exact this)
  obtain ⟨md, hmd⟩ := Option.isSome_iff_exists.mp htot
  constructor
  · unfold fasta2MetaData
    rw [hmd]
    rfl
  · intro r hr
    unfold fasta2MetaData at hr
    rw [hmd] at hr
    injection hr with hr
    obtain ⟨p1, p2, p3, p4⟩ :=
      applyTokens_preserve (pySplit ((" [").toList) fasta.toList)
        MetaData.empty md hmd
    have hproj : r.aliasF = md.aliasF ∧ r.description = md.description
        ∧ r.direction = md.direction ∧ r.start = md.start
        ∧ r.stop = md.stop := by
      subst hr
      by_cases hl : md.link.isNone
      · simp [hl]
      · simp [hl]
    refine ⟨?_, ?_, ?_, ?_⟩
    · intro hall
      rw [hproj.1, p1 hall]
      rfl
    · intro hall
      rw [hproj.2.1, p2 hall]
      rfl
    · intro hall
      have hlink : md.link = none := p3 hall
      subst hr
      simp [hlink]
    · intro hall
      obtain ⟨q1, q2, q3⟩ := p4 hall
      exact ⟨hproj.2.2.1.trans q1, hproj.2.2.2.1.trans q2,
        hproj.2.2.2.2.trans q3⟩

/-- Witness for claim C8: a concrete valid line carrying only a location
field parses successfully, and its `description` is left unset while `link`
is defaulted to the empty string. -/
theorem c8_parser_total_on_valid_witness :
    (fasta2MetaData (">c8w [location=21..43]")).isSome = true
    ∧ (⟨none, none, some (""), some ("+"), some 21, some 43⟩
        : MetaData).description = none
    ∧ (⟨none, none, some (""), some ("+"), some 21, some 43⟩
        : MetaData).link = some ("") := by
  have h := c8_parser_total_on_valid (">c8w [location=21..43]") (by decide)
  refine ⟨h.1, ?_, ?_⟩
  · exact ((h.2 ⟨none, none, some (""), some ("+"), some 21, some 43⟩
      (by decide)).2.1) (by decide)
  · exact ((h.2 ⟨none, none, some (""), some ("+"), some 21, some 43⟩
      (by decide)).2.2.1) (by decide)

/-! ## Helper lemmas about the genome scan -/

/-- A non-empty string has a non-empty character list. -/
theorem toList_ne_nil (l : String) (h : l ≠ ("")) : l.toList ≠ [] :=
  fun hc => h (String.ext hc)

/-- Characterization of the `parseGenome` loop from any starting state, over
a genome without empty lines: the counter advances by the number of headers,
the headers are appended in order, and the recorded index is the last
matching header's ordinal when one exists, the inherited one otherwise. -/
theorem parseGenomeAux_spec (start stop : String) :
    ∀ (genome : List String) (n : Nat) (acc : List String) (reg : Option Nat),
      (∀ l ∈ genome, l ≠ ("")) →
      parseGenomeAux start stop (n, acc, reg) genome
        = some (n + (headerLines genome).length, acc ++ headerLines genome,
            match matchIndex start stop genome n with
            | some k => some k
            | none => reg) := by
  intro genome
  induction genome with
  | nil =>
    intro n acc reg _
    simp [parseGenomeAux, headerLines, matchIndex]
  | cons l ls ih =>
    intro n acc reg hne
    have hl : l.toList ≠ [] := toList_ne_nil l (hne l (List.mem_cons_self l ls))
    have hne2 : ∀ x ∈ ls, x ≠ ("") :=
      fun x hx => hne x (List.mem_cons_of_mem l hx)
    rcases hlt : l.toList with _ | ⟨c, cs⟩
    · exact absurd hlt hl
    · have hstep : parseGenomeStep start stop (n, acc, reg) l
          = (if c = '>' then
              some (n + 1, acc ++ [l],
                if matchesBoth start stop l then some n else reg)
            else some (n, acc, reg)) := by
        unfold parseGenomeStep
        rw [hlt]
      have hhead : isHeader l = (c = '>' : Bool) := by
        unfold isHeader
        rw [hlt]
      by_cases hc : c = '>'
      · have hbridge : parseGenomeAux start stop (n, acc, reg) (l :: ls)
            = parseGenomeAux start stop
                (n + 1, acc ++ [l],
                  if matchesBoth start stop l then some n else reg) ls := by
          conv_lhs => rw [parseGenomeAux]
          rw [hstep, if_pos hc]
        rw [hbridge, ih (n + 1) (acc ++ [l])
          (if matchesBoth start stop l then some n else reg) hne2]
        have hhl : headerLines (l :: ls) = l :: headerLines ls := by
          unfold headerLines
          simp [List.filter, hhead, hc]
        have hmi : matchIndex start stop (l :: ls) n
            = (match matchIndex start stop ls (n + 1) with
               | some k => some k
               | none => if matchesBoth start stop l then some n else none) := by
          conv_lhs => rw [matchIndex]
          rw [if_pos (by rw [hhead]; exact decide_eq_true hc)]
        rw [hhl, hmi]
        rcases hms : matchIndex start stop ls (n + 1) with _ | k
        · by_cases hmb : matchesBoth start stop l = true
          · simp [hmb, List.append_assoc]
            omega
          · rw [Bool.not_eq_true] at hmb
            simp [hmb, List.append_assoc]
            omega
        · simp [List.append_assoc]
          omega
      · have hbridge : parseGenomeAux start stop (n, acc, reg) (l :: ls)
            = parseGenomeAux start stop (n, acc, reg) ls := by
          conv_lhs => rw [parseGenomeAux]
          rw [hstep, if_neg hc]
        rw [hbridge, ih n acc reg hne2]
        have hhl : headerLines (l :: ls) = headerLines ls := by
          unfold headerLines
          simp [List.filter, hhead, hc]
        have hmi : matchIndex start stop (l :: ls) n
            = matchIndex start stop ls n := by
          conv_lhs => rw [matchIndex]
          rw [if_neg (by rw [hhead]; simp [hc])]
        rw [hhl, hmi]

/-- Unfolding `matchIndex` over a header line. -/
theorem matchIndex_cons_header (start stop l : String) (ls : List String)
    (n : Nat) (h : isHeader l = true) :
    matchIndex start stop (l :: ls) n
      = (match matchIndex start stop ls (n + 1) with
         | some k => some k
         | none => if matchesBoth start stop l then some n else none) := by
  conv_lhs => rw [matchIndex]
  rw [if_pos h]

/-- Unfolding `matchIndex` over a non-header line. -/
theorem matchIndex_cons_nonheader (start stop l : String) (ls : List String)
    (n : Nat) (h : ¬ isHeader l = true) :
    matchIndex start stop (l :: ls) n = matchIndex start stop ls n := by
  conv_lhs => rw [matchIndex]
  rw [if_neg h]

/-- Unfolding `headerLines` over a header line. -/
theorem headerLines_cons_header (l : String) (ls : List String)
    (h : isHeader l = true) :
    headerLines (l :: ls) = l :: headerLines ls := by
  unfold headerLines
  simp [List.filter, h]

/-- Unfolding `headerLines` over a non-header line. -/
theorem headerLines_cons_nonheader (l : String) (ls : List String)
    (h : ¬ isHeader l = true) :
    headerLines (l :: ls) = headerLines ls := by
  unfold headerLines
  simp [List.filter, h]

/-- When no header matches both patterns, no match ordinal is recorded. -/
theorem matchIndex_eq_none (start stop : String) :
    ∀ (ls : List String) (n : Nat),
    (∀ j lj, (headerLines ls).get? j = some lj →
      ¬ matchesBoth start stop lj = true) →
    matchIndex start stop ls n = none := by
  intro ls
  induction ls with
  | nil => intro n _; rfl
  | cons l ls ih =>
    intro n h
    by_cases hh : isHeader l = true
    · rw [matchIndex_cons_header start stop l ls n hh]
      rw [ih (n + 1) (fun j lj hj => h (j + 1) lj
        (by rw [headerLines_cons_header l ls hh]; simpa using hj))]
      have h0 := h 0 l (by rw [headerLines_cons_header l ls hh]; rfl)
      simp [h0]
    · rw [matchIndex_cons_nonheader start stop l ls n hh]
      exact ih n (fun j lj hj => h j lj
        (by rw [headerLines_cons_nonheader l ls hh]; exact hj))

/-- When exactly one header — the one at gene ordinal `k` — matches both
patterns, the recorded match ordinal is `n + k`. -/
theorem matchIndex_eq_some (start stop : String) :
    ∀ (ls : List String) (k : Nat) (lk : String) (n : Nat),
    (headerLines ls).get? k = some lk →
    matchesBoth start stop lk = true →
    (∀ j lj, (headerLines ls).get? j = some lj →
      matchesBoth start stop lj = true → j = k) →
    matchIndex start stop ls n = some (n + k) := by
  intro ls
  induction ls with
  | nil =>
    intro k lk n hk _ _
    rw [show headerLines ([] : List String) = [] from rfl] at hk
    exact absurd hk (by simp)
  | cons l ls ih =>
    intro k lk n hk hm huniq
    by_cases hh : isHeader l = true
    · rw [headerLines_cons_header l ls hh] at hk huniq
      rw [matchIndex_cons_header start stop l ls n hh]
      cases k with
      | zero =>
        have hlk : l = lk := by simpa using hk
        have hnone : matchIndex start stop ls (n + 1) = none := by
          apply matchIndex_eq_none
          intro j lj hj hmj
          have h01 := huniq (j + 1) lj (by simpa using hj) hmj
          exact absurd h01 (by omega)
        rw [hnone]
        rw [hlk]
        simp [hm]
      | succ j =>
        have hk2 : (headerLines ls).get? j = some lk := by simpa using hk
        have huniq2 : ∀ j2 lj2, (headerLines ls).get? j2 = some lj2 →
            matchesBoth start stop lj2 = true → j2 = j := by
          intro j2 lj2 hj2 hmj2
          have := huniq (j2 + 1) lj2 (by simpa using hj2) hmj2
          omega
        rw [ih j lk (n + 1) hk2 hm huniq2]
        simp
        omega
    · rw [headerLines_cons_nonheader l ls hh] at hk huniq
      rw [matchIndex_cons_nonheader start stop l ls n hh]
      exact ih k lk n hk hm huniq

/-- `parseGenome` in terms of `headerLines` and `matchIndex`, over a genome
without empty lines. -/
theorem parseGenome_eq (genome : List String) (start stop : String)
    (hne : ∀ l ∈ genome, l ≠ ("")) :
    parseGenome genome start stop
      = match matchIndex start stop genome 0 with
        | none => none
        | some k => some (headerLines genome, k) := by
  unfold parseGenome
  rw [parseGenomeAux_spec start stop genome 0 [] none hne]
  rcases hmi : matchIndex start stop genome 0 with _ | k
  · rfl
  · simp

/-- Claim C9: on a genome whose lines are non-empty (as `readlines` yields)
and in which exactly one `>`-prefixed header matches both the start and the
stop pattern (`re.search` with the caller's metacharacter-free coordinate
patterns, i.e. substring containment), `parseGenome` returns the list of all
`>`-prefixed lines together with that header's 0-based gene ordinal, counting
only `>`-prefixed lines. -/
theorem c9_parseGenome (genome : List String) (start stop : String)
    (k : Nat) (lk : String)
    (hne : ∀ l ∈ genome, l ≠ (""))
    (hk : (headerLines genome).get? k = some lk)
    (hmatch : matchesBoth start stop lk = true)
    (huniq : ∀ j lj, (headerLines genome).get? j = some lj →
      matchesBoth start stop lj = true → j = k) :
    parseGenome genome start stop = some (headerLines genome, k) := by
  rw [parseGenome_eq genome start stop hne]
  rw [matchIndex_eq_some start stop genome k lk 0 hk hmatch huniq]
  simp

/-- Input for the C9 witness: a 5-line synthetic contig, three headers and
two sequence lines; only the second header carries `333` and `444`. -/
def c9Genome : List String :=
  [(">gene one 111 222"), ("MKVAA"), (">gene two 333 444"), ("QQRST"),
   (">gene three 555 666")]

/-- Witness for claim C9 on the synthetic contig: the unique header matching
`333` and `444` is at gene ordinal 1, and `parseGenome` returns all three
headers with index 1. -/
theorem c9_parseGenome_witness :
    parseGenome c9Genome ("333") ("444")
      = some ([(">gene one 111 222"), (">gene two 333 444"),
               (">gene three 555 666")], 1) := by
  have hh : headerLines c9Genome
      = [(">gene one 111 222"), (">gene two 333 444"),
         (">gene three 555 666")] := by decide
  have h := c9_parseGenome c9Genome ("333") ("444") 1 (">gene two 333 444")
    (by decide) (by rw [hh]; rfl) (by decide)
    (by
      intro j lj hj hm
      rw [hh] at hj
      match j, hj with
      | 0, hj =>
        injection hj with hj
        subst hj
        exact absurd hm (by decide)
      | 1, _ => rfl
      | 2, hj =>
        injection hj with hj
        subst hj
        exact absurd hm (by decide)
      | j + 3, hj => exact absurd hj (by simp))
  rw [h, hh]
